import Mathlib

/-!
# StickGame: shallow embedding and verification

A shallow embedding of the stick-removal game and its tabular
reinforcement-learning agent, translated from the JavaScript sources
(`src/index.js`, the console variant, and the terminal-UI variant).
Numbers are modelled as `Int` (game states, actions, rewards) and `ℚ`
(value-table entries, learning rate).  A JS object used as a map from
integer state to number is modelled as an association list; a lookup of
a missing key (JS `undefined`) is `Option.none`.  The `NaN` placeholder
stored in a fresh transition's `nextState` is modelled as `none` as
well: in JS, `values[NaN]` is `undefined`, and every use of `nextState`
goes through `|| 0` which sends both to `0`.
-/

/-- A transition record as pushed by `Player.turnFinished`:
`{action, prevState, nextState: NaN, reward: 0}` with `nextState`/`reward`
mutated later.  `nextState = none` models the `NaN` placeholder. -/
structure Transition where
  action : Int
  prevState : Int
  nextState : Option Int
  reward : Int
deriving DecidableEq

/-- The bookkeeping fields of class `Player`: per-episode transition
history, reward log, and win/lose counters. -/
structure PlayerState where
  history : List Transition
  rewards : List Int
  winCount : Nat
  loseCount : Nat
deriving DecidableEq

/-- A player with empty history, empty reward log, zero counters:
the state of a freshly constructed `Player`. -/
def emptyPlayer : PlayerState :=
  { history := [], rewards := [], winCount := 0, loseCount := 0 }

/-- `Player.gameRestart()`: `this.history = []`. -/
def gameRestart (p : PlayerState) : PlayerState :=
  { p with history := [] }

/-- Apply `f` to the last element of a list, as the JS code does with
`this.history[this.history.length - 1]`. -/
def updateLast (f : Transition → Transition) : List Transition → List Transition
  | [] => []
  | [t] => [f t]
  | t :: ts => t :: updateLast f ts

/-- `Player.turnFinished(isPlayerTurn, isGameOver, prevState, nextState, action)`:
the acting player pushes a fresh record (reward `-1` if the move ended the
game, also logging the loss); the non-acting player, when it has history,
fills the last record's `nextState` (reward `+1` if the game ended, also
logging the win). -/
def turnFinished (isPlayerTurn isGameOver : Bool) (prevState nextState action : Int)
    (p : PlayerState) : PlayerState :=
  if isPlayerTurn then
    let p1 : PlayerState :=
      { p with history := p.history ++
          [{ action := action, prevState := prevState, nextState := none, reward := 0 }] }
    if isGameOver then
      { p1 with history := updateLast (fun t => { t with reward := -1 }) p1.history,
                rewards := p1.rewards ++ [-1],
                loseCount := p1.loseCount + 1 }
    else p1
  else if 0 < p.history.length then
    let p1 : PlayerState :=
      { p with history := updateLast (fun t => { t with nextState := some nextState }) p.history }
    if isGameOver then
      { p1 with history := updateLast (fun t => { t with reward := 1 }) p1.history,
                rewards := p1.rewards ++ [1],
                winCount := p1.winCount + 1 }
    else p1
  else p

/-- The value table `this.values`: a JS object mapping integer game state
to a number, modelled as an association list (assignment conses in front,
lookup takes the first hit, matching JS overwrite semantics). -/
abbrev VT := List (Int × ℚ)

/-- Lookup `values[k]`; `none` models JS `undefined` on a missing key. -/
def vtLookup (values : VT) (k : Int) : Option ℚ :=
  match values with
  | [] => none
  | (k', q) :: rest => if k = k' then some q else vtLookup rest k

/-- Lookup with a possibly-`NaN` key, as in `values[action.nextState]`
where `nextState` may still hold the `NaN` placeholder; `values[NaN]`
is `undefined`. -/
def vtLookupN (values : VT) (k : Option Int) : Option ℚ :=
  match k with
  | none => none
  | some k' => vtLookup values k'

/-- The stored value with the `|| 0` default used by `train()`. -/
def vtGet (values : VT) (s : Int) : ℚ :=
  (vtLookup values s).getD 0

/-- The JS `<` comparison on two possibly-`undefined` numbers: any
comparison involving `undefined` (which coerces to `NaN`) is `false`. -/
def ltJS : Option ℚ → Option ℚ → Bool
  | some a, some b => decide (a < b)
  | _, _ => false

/-- Error values observable from the embedded code.  The repository never
defines nor throws a `ConfigurationError`; the constructor exists here only
so that statements about it can be made. -/
inductive JsError where
  | configurationError (msg : String)
  | typeError (msg : String)
  | error (msg : String)
deriving DecidableEq

/-- `PlayerAI.greedyStep`: `possibleNextStates.reduce((min, current) =>
(this.values[current] < this.values[min]) ? current : min)`.  JS
`Array.prototype.reduce` with no initial value throws a `TypeError` on an
empty array; on `x :: xs` it folds over `xs` starting from `x`. -/
def greedyStep (values : VT) (possible : List Int) : Except JsError Int :=
  match possible with
  | [] => Except.error (JsError.typeError ("Reduce of empty array with no initial value"))
  | x :: xs =>
      Except.ok (xs.foldl (fun mn c => if ltJS (vtLookup values c) (vtLookup values mn) then c else mn) x)

/-- One iteration of the loop body of `PlayerAI.train()` on one transition
record: read both values with the `|| 0` default, apply the TD update or the
terminal update, and write the result back at key `prevState`. -/
def trainStep (lr : ℚ) (values : VT) (tr : Transition) : VT :=
  let prevStateValue := (vtLookup values tr.prevState).getD 0
  let nextStateValue := (vtLookupN values tr.nextState).getD 0
  let newValue :=
    if tr.reward = 0 then prevStateValue + lr * (nextStateValue - prevStateValue)
    else prevStateValue + lr * ((tr.reward : ℚ) - prevStateValue)
  (tr.prevState, newValue) :: values

/-- The value table produced by `PlayerAI.train()`:
`for(const action of this.history.reverse()) ...` iterates over the
reversed history, most recent record first. -/
def trainValues (lr : ℚ) (hist : List Transition) (values : VT) : VT :=
  (hist.reverse).foldl (trainStep lr) values

/-- The full state of a `PlayerAI` instance: the inherited `Player`
fields plus the value table, exploration rate and learning rate. -/
structure AIState where
  history : List Transition
  rewards : List Int
  winCount : Nat
  loseCount : Nat
  values : VT
  eps : ℚ
  lr : ℚ
deriving DecidableEq

/-- `PlayerAI.train()`: `this.history.reverse()` reverses the history in
place and the loop updates `this.values`; nothing else is touched. -/
def trainAI (s : AIState) : AIState :=
  { s with history := s.history.reverse,
           values := trainValues s.lr s.history s.values }

/-- `Player.gameRestart()` as inherited by `PlayerAI`. -/
def gameRestartAI (s : AIState) : AIState :=
  { s with history := [] }

/-- The validity test of `HumanPlayer.play` on a parsed action index:
`action !== NaN && action > 0 && action <= possibleNextStates.length`.
In JS `action !== NaN` is always `true` (`NaN !== NaN`), and a `NaN`
index (modelled as `none`, from non-numeric input) fails `NaN > 0`. -/
def validAction (possible : List Int) : Option Int → Bool
  | some a => decide (0 < a) && decide (a ≤ (possible.length : Int))
  | none => false

/-- The terminal-UI `HumanPlayer.play` (the `while(true)` re-prompt loop):
given the stream of parsed inputs that the prompt will successively return
(`none` models non-numeric input, i.e. `parseInt` giving `NaN`), it skips
invalid entries and returns `possibleNextStates[action - 1]` for the first
valid one; if the stream runs out it is still suspended (`none`). -/
def humanPlayTerm (possible : List Int) : List (Option Int) → Option Int
  | [] => none
  | i :: rest =>
      match i with
      | some a =>
          if 0 < a ∧ a ≤ (possible.length : Int) then (possible.get? (a.toNat - 1))
          else humanPlayTerm possible rest
      | none => humanPlayTerm possible rest

/-- The console `HumanPlayer.play` (`src/index.js`): reads one input and
either returns `possibleNextStates[action - 1]` or throws
`new Error:  Bad action: ...`. -/
def humanPlayConsole (possible : List Int) (i : Option Int) : Except JsError Int :=
  match i with
  | some a =>
      if 0 < a ∧ a ≤ (possible.length : Int) then
        Except.ok ((possible.get? (a.toNat - 1)).getD 0)
      else Except.error (JsError.error (("Bad action: ") ++ toString a))
  | none => Except.error (JsError.error ("Bad action: NaN"))

/-- The state of a `StickGame` instance: the pile, the configuration
(`size`, `actions`), the finished flag, the active-player flag
(`this.player`, `false` selects `player1`), and both players. -/
structure GameState where
  nstick : Int
  size : Int
  actions : List Int
  finished : Bool
  player : Bool
  p1 : PlayerState
  p2 : PlayerState
deriving DecidableEq

/-- `StickGame.restart(startPlayer)`: reset the pile to the configured
size, clear the finished flag, set the active player, and call
`gameRestart()` on both players. -/
def restart (g : GameState) (startPlayer : Bool) : GameState :=
  { g with nstick := g.size, finished := false, player := startPlayer,
           p1 := gameRestart g.p1, p2 := gameRestart g.p2 }

/-- `this.actions.map(action => this.nstick - action)`: the ordered list of
legal successor piles offered to the active player, one per configured
action, unfiltered. -/
def possibleNStick (g : GameState) : List Int :=
  g.actions.map (fun a => g.nstick - a)

/-- `StickGame.playNextTurn()`, parametrised by the active player's `play`
function (the dynamic dispatch on `getPlayer(false)`): compute the legal
successors, set the pile to `play`'s result, set `finished` when the new
pile is `≤ 0`, notify the mover and then the other player, and flip the
active-player flag unconditionally. -/
def playNextTurn (play : Int → List Int → Int) (g : GameState) : GameState :=
  let prevNStick := g.nstick
  let newNStick := play g.nstick (possibleNStick g)
  let fin := if newNStick ≤ 0 then true else g.finished
  let mover := turnFinished true fin prevNStick newNStick (prevNStick - newNStick)
    (if g.player then g.p2 else g.p1)
  let other := turnFinished false fin prevNStick newNStick (prevNStick - newNStick)
    (if g.player then g.p1 else g.p2)
  { g with nstick := newNStick, finished := fin, player := !g.player,
           p1 := if g.player then other else mover,
           p2 := if g.player then mover else other }

/-- One turn in which the active player's `play` returned the pile `m`. -/
def stepMove (g : GameState) (m : Int) : GameState :=
  playNextTurn (fun _ _ => m) g

/-- A sequence of turns with the given returned pile values. -/
def runGame (g : GameState) (moves : List Int) : GameState :=
  moves.foldl stepMove g

/-- `playNextTurn` with the active player being a `PlayerAI` on its greedy
branch (`r >= this.eps`): the chosen pile is `greedyStep`'s result, and a
thrown JS error propagates to the caller. -/
def playNextTurnGreedy (values : VT) (g : GameState) : Except JsError GameState :=
  match greedyStep values (possibleNStick g) with
  | Except.error e => Except.error e
  | Except.ok n => Except.ok (stepMove g n)

/-- Whether an engine-step outcome is a thrown `ConfigurationError`. -/
def isConfigurationError : Except JsError GameState → Bool
  | Except.error (JsError.configurationError _) => true
  | _ => false

/-- The player about to move: `getPlayer(false)`. -/
def moverPS (g : GameState) : PlayerState :=
  if g.player then g.p2 else g.p1

/-- The player not about to move: `getPlayer(true)`. -/
def otherPS (g : GameState) : PlayerState :=
  if g.player then g.p1 else g.p2

/-- Every record is filled and non-terminal: `nextState` set, reward `0`. -/
def allFilled (h : List Transition) : Prop :=
  ∀ t ∈ h, t.nextState ≠ none ∧ t.reward = 0

/-- Either empty, or all records filled and non-terminal except a pending
non-terminal last record (the record of the move just made). -/
def okMid (h : List Transition) : Prop :=
  h = [] ∨ ∃ h' a p,
    h = h' ++ [{ action := a, prevState := p, nextState := none, reward := 0 }] ∧ allFilled h'

/-- Mid-episode invariant: the game is not finished, the player about to
move has a fully filled non-terminal history, and the player who just
moved has at most one pending record, at the end. -/
def midGame (g : GameState) : Prop :=
  g.finished = false ∧ allFilled (moverPS g).history ∧ okMid (otherPS g).history

/-- The reward logs and counters of both players, bundled. -/
def statsOf (g : GameState) : (List Int × Nat × Nat) × (List Int × Nat × Nat) :=
  ((g.p1.rewards, g.p1.winCount, g.p1.loseCount),
   (g.p2.rewards, g.p2.winCount, g.p2.loseCount))

/-- First-argmin fold: the pure form that `greedyStep`'s reduce takes when
every compared value is present in the table. -/
def argminFold (val : Int → ℚ) (m : Int) (xs : List Int) : Int :=
  xs.foldl (fun mn c => if val c < val mn then c else mn) m

/-- A fresh in-progress game with pile 5, default configuration, both
players fresh, player 1 to move. -/
def gDemo : GameState :=
  { nstick := 5, size := 24, actions := [1, 2, 3], finished := false,
    player := false, p1 := emptyPlayer, p2 := emptyPlayer }

lemma updateLast_append_single (f : Transition → Transition) (h : List Transition)
    (t : Transition) : updateLast f (h ++ [t]) = h ++ [f t] := by
  induction h with
  | nil => rfl
  | cons x h ih =>
    cases h with
    | nil => rfl
    | cons y h' => simpa [updateLast] using ih

lemma updateLast_length (f : Transition → Transition) (h : List Transition) :
    (updateLast f h).length = h.length := by
  induction h with
  | nil => rfl
  | cons x h ih =>
    cases h with
    | nil => rfl
    | cons y h' => simpa [updateLast] using ih

lemma turnFinished_mover_nonterminal (pv nx ac : Int) (p : PlayerState) :
    turnFinished true false pv nx ac p =
      { p with history := p.history ++
          [{ action := ac, prevState := pv, nextState := none, reward := 0 }] } := by
  simp [turnFinished]

lemma turnFinished_mover_terminal (pv nx ac : Int) (p : PlayerState) :
    turnFinished true true pv nx ac p =
      { p with
          history := p.history ++ [{ action := ac, prevState := pv, nextState := none, reward := -1 }],
          rewards := p.rewards ++ [-1],
          loseCount := p.loseCount + 1 } := by
  simp [turnFinished, updateLast_append_single]

lemma turnFinished_other_nil (go : Bool) (pv nx ac : Int) (p : PlayerState)
    (h : p.history = []) : turnFinished false go pv nx ac p = p := by
  simp [turnFinished, h]

lemma turnFinished_other_nonterminal (pv nx ac : Int) (p : PlayerState)
    (h' : List Transition) (t : Transition) (hh : p.history = h' ++ [t]) :
    turnFinished false false pv nx ac p =
      { p with history := h' ++ [{ t with nextState := some nx }] } := by
  simp [turnFinished, hh, updateLast_append_single]

lemma turnFinished_other_terminal (pv nx ac : Int) (p : PlayerState)
    (h' : List Transition) (t : Transition) (hh : p.history = h' ++ [t]) :
    turnFinished false true pv nx ac p =
      { p with
          history := h' ++ [{ t with nextState := some nx, reward := 1 }],
          rewards := p.rewards ++ [1],
          winCount := p.winCount + 1 } := by
  simp [turnFinished, hh, updateLast_append_single]

/-- Claim C1: `PlayerAI.train()` processes the transition records most
recent first (appending a record means it is processed before the rest),
and each record updates the table at key `prevState` with the TD rule when
`reward = 0` and with the terminal rule otherwise, reading both stored
values with default `0`, leaving every other key unchanged. -/
theorem train_reverse_update (lr : ℚ) (v : VT) (hist : List Transition) (tr : Transition) :
    trainValues lr (hist ++ [tr]) v = trainValues lr hist (trainStep lr v tr) ∧
    vtLookup (trainStep lr v tr) tr.prevState =
      some (if tr.reward = 0 then
              (vtLookup v tr.prevState).getD 0 +
                lr * ((vtLookupN v tr.nextState).getD 0 - (vtLookup v tr.prevState).getD 0)
            else
              (vtLookup v tr.prevState).getD 0 +
                lr * ((tr.reward : ℚ) - (vtLookup v tr.prevState).getD 0)) ∧
    ∀ k : Int, k ≠ tr.prevState → vtLookup (trainStep lr v tr) k = vtLookup v k := by
  refine ⟨?_, ?_, ?_⟩
  · simp [trainValues, List.reverse_append]
  · simp [trainStep, vtLookup]
  · intro k hk
    simp [trainStep, vtLookup, hk]

/-- Witness for C1 at a concrete non-terminal record on the empty table. -/
theorem train_reverse_update_witness :
    trainValues 1 ([] ++ [{ action := 1, prevState := 5, nextState := some 4, reward := 0 }]) [] =
      trainValues 1 []
        (trainStep 1 [] { action := 1, prevState := 5, nextState := some 4, reward := 0 }) ∧
    vtLookup (trainStep 1 [] { action := 1, prevState := 5, nextState := some 4, reward := 0 }) 5 =
      some (0 + 1 * (0 - 0)) ∧
    vtLookup (trainStep 1 [] { action := 1, prevState := 5, nextState := some 4, reward := 0 }) 3 =
      vtLookup [] 3 :=
  ⟨(train_reverse_update 1 [] [] _).1,
   (train_reverse_update 1 [] [] _).2.1,
   (train_reverse_update 1 [] [] _).2.2 3 (by decide)⟩

/-- Claim C9: `train()` is a pure function of the history, the value table
and the learning rate: two agent states agreeing on those three fields
(whatever their exploration rates and statistics) train to identical value
tables and identical histories. -/
theorem train_deterministic (s₁ s₂ : AIState) (hh : s₁.history = s₂.history)
    (hv : s₁.values = s₂.values) (hl : s₁.lr = s₂.lr) :
    (trainAI s₁).values = (trainAI s₂).values ∧
    (trainAI s₁).history = (trainAI s₂).history := by
  constructor <;> simp [trainAI, hh, hv, hl]

/-- Witness for C9: two agents identical in history, table, and learning
rate but with different exploration rates and statistics. -/
theorem train_deterministic_witness :
    (trainAI { history := [{ action := 1, prevState := 3, nextState := some 2, reward := 0 }],
               rewards := [], winCount := 0, loseCount := 0,
               values := [(2, 1)], eps := 1/2, lr := 1 }).values =
    (trainAI { history := [{ action := 1, prevState := 3, nextState := some 2, reward := 0 }],
               rewards := [1, -1], winCount := 4, loseCount := 7,
               values := [(2, 1)], eps := 0, lr := 1 }).values ∧
    (trainAI { history := [{ action := 1, prevState := 3, nextState := some 2, reward := 0 }],
               rewards := [], winCount := 0, loseCount := 0,
               values := [(2, 1)], eps := 1/2, lr := 1 }).history =
    (trainAI { history := [{ action := 1, prevState := 3, nextState := some 2, reward := 0 }],
               rewards := [1, -1], winCount := 4, loseCount := 7,
               values := [(2, 1)], eps := 0, lr := 1 }).history :=
  train_deterministic _ _ rfl rfl rfl

/-- Claim C10: `train()` does not clear the per-episode history: it leaves
it reversed in place, with the same length; only `gameRestart()` (called by
the engine's `restart` on both players) empties it, and `turnFinished`
never shrinks it. -/
theorem train_keeps_history :
    (∀ s : AIState, (trainAI s).history = s.history.reverse) ∧
    (∀ s : AIState, (trainAI s).history.length = s.history.length) ∧
    (∀ s : AIState, (gameRestartAI s).history = []) ∧
    (∀ (g : GameState) (b : Bool),
      (restart g b).p1.history = [] ∧ (restart g b).p2.history = []) ∧
    (∀ (ipt igo : Bool) (pv nx ac : Int) (p : PlayerState),
      p.history.length ≤ (turnFinished ipt igo pv nx ac p).history.length) := by
  refine ⟨fun s => rfl, fun s => by simp [trainAI], fun s => rfl,
    fun g b => ⟨rfl, rfl⟩, ?_⟩
  intro ipt igo pv nx ac p
  simp only [turnFinished]
  split_ifs <;> simp [updateLast_length]

/-- Claim C5: from an in-progress game, one turn finishes the game exactly
when the pile value returned by the active player's `play` is `≤ 0`, stays
in progress exactly when it is positive, and flips the active-player flag
unconditionally. -/
theorem playNextTurn_finish_flip (play : Int → List Int → Int) (g : GameState)
    (h : g.finished = false) :
    ((playNextTurn play g).finished = true ↔ play g.nstick (possibleNStick g) ≤ 0) ∧
    ((playNextTurn play g).finished = false ↔ 0 < play g.nstick (possibleNStick g)) ∧
    (playNextTurn play g).player = !g.player := by
  refine ⟨?_, ?_, rfl⟩ <;>
    · simp only [playNextTurn]
      by_cases hle : play g.nstick (possibleNStick g) ≤ 0 <;> simp [hle, h] <;> omega

/-- Witness for C5: a terminal move from the demo game. -/
theorem playNextTurn_finish_flip_witness :
    ((playNextTurn (fun _ _ => 0) gDemo).finished = true ↔ (0 : Int) ≤ 0) ∧
    ((playNextTurn (fun _ _ => 0) gDemo).finished = false ↔ (0 : Int) < 0) ∧
    (playNextTurn (fun _ _ => 0) gDemo).player = !gDemo.player :=
  playNextTurn_finish_flip (fun _ _ => 0) gDemo rfl

/-- Claim C8: the list of successor piles offered to the active player has
one entry per configured action, in the configured order, each equal to
`pile - action`, with no filtering of non-positive results; in particular
for pile `2` and actions `[1, 2, 3]` it is `[1, 0, -1]`. -/
theorem possible_states_enumeration :
    (∀ g : GameState, (possibleNStick g).length = g.actions.length) ∧
    (∀ (g : GameState) (i : Nat),
      (possibleNStick g).get? i = (g.actions.get? i).map (fun a => g.nstick - a)) ∧
    possibleNStick { nstick := 2, size := 24, actions := [1, 2, 3], finished := false,
                     player := false, p1 := emptyPlayer, p2 := emptyPlayer } = [1, 0, -1] := by
  refine ⟨fun g => by simp [possibleNStick], fun g i => by simp [possibleNStick], by decide⟩

lemma humanPlayTerm_skip (possible : List Int) (pre rest : List (Option Int))
    (hpre : ∀ i ∈ pre, validAction possible i = false) :
    humanPlayTerm possible (pre ++ rest) = humanPlayTerm possible rest := by
  revert hpre
  induction pre with
  | nil => intro _; rfl
  | cons i pre ih =>
    intro hpre
    have hi := hpre i (by simp)
    have hrec := fun j hj => hpre j (List.mem_cons_of_mem i hj)
    cases i with
    | none => simpa [humanPlayTerm] using ih hrec
    | some b =>
      have hb : ¬(0 < b ∧ b ≤ (possible.length : Int)) := by
        simpa [validAction] using hi
      simpa [humanPlayTerm, hb] using ih hrec

/-- Counterexample to claim C4 as stated: the console variant's
`HumanPlayer.play` (`src/index.js` lines 132-142) throws
`Error: Bad action: 5` to its caller on the out-of-range index `5`
instead of re-prompting. -/
theorem human_console_throws_cex :
    humanPlayConsole [23, 22, 21] (some 5) =
      Except.error (JsError.error ("Bad action: 5")) := by
  rfl

/-- Claim C4 (amended): in the terminal-UI variant, `HumanPlayer.play`
skips every invalid input (non-numeric or outside `[1, numLegalActions]`)
without surfacing an error and returns the legal successor at the 1-based
index of the first valid input; the console variant instead throws an
`Error` on invalid input. -/
theorem human_term_reprompts (possible : List Int) (pre rest : List (Option Int)) (a : Int)
    (hpre : ∀ i ∈ pre, validAction possible i = false)
    (ha : 0 < a) (hlen : a ≤ (possible.length : Int)) :
    humanPlayTerm possible (pre ++ some a :: rest) = possible.get? (a.toNat - 1) ∧
    (possible.get? (a.toNat - 1)).isSome = true := by
  have hsucc : a.toNat - 1 < possible.length := by omega
  constructor
  · rw [humanPlayTerm_skip possible pre (some a :: rest) hpre]
    simp [humanPlayTerm, ha, hlen]
  · rw [List.get?_eq_get hsucc]
    rfl

/-- Witness for C4 (amended): two invalid inputs (index 0, then a
non-numeric one) are skipped, then index 2 selects the second successor. -/
theorem human_term_reprompts_witness :
    humanPlayTerm [9, 8, 7] ([some 0, none] ++ some 2 :: []) =
      [9, 8, 7].get? ((2 : Int).toNat - 1) ∧
    ([9, 8, 7].get? ((2 : Int).toNat - 1)).isSome = true :=
  human_term_reprompts [9, 8, 7] [some 0, none] [] 2 (by decide) (by decide) (by decide)

/-- Counterexample to claim C7 as stated: with an empty configured action
list, advancing a turn with the greedy learning agent active fails with a
`TypeError` thrown by `reduce` on the empty successor array — not with a
`ConfigurationError` (none exists in the code). -/
theorem empty_actions_type_error_cex :
    playNextTurnGreedy []
        { nstick := 5, size := 24, actions := [], finished := false,
          player := false, p1 := emptyPlayer, p2 := emptyPlayer } =
      Except.error (JsError.typeError ("Reduce of empty array with no initial value")) ∧
    isConfigurationError (playNextTurnGreedy []
        { nstick := 5, size := 24, actions := [], finished := false,
          player := false, p1 := emptyPlayer, p2 := emptyPlayer }) = false := by
  constructor <;> rfl

/-- Claim C7 (amended): whenever the configured action list is empty, a
turn of the greedy learning agent fails fast, but with the `TypeError`
raised by reducing the empty legal-successor array, never with a
`ConfigurationError`. -/
theorem empty_actions_fails_type_error (values : VT) (g : GameState) (h : g.actions = []) :
    playNextTurnGreedy values g =
      Except.error (JsError.typeError ("Reduce of empty array with no initial value")) ∧
    isConfigurationError (playNextTurnGreedy values g) = false := by
  have hp : possibleNStick g = [] := by simp [possibleNStick, h]
  constructor <;> simp [playNextTurnGreedy, hp, greedyStep, isConfigurationError]

/-- Witness for C7 (amended) on a concrete misconfigured game. -/
theorem empty_actions_fails_type_error_witness :
    playNextTurnGreedy [(3, 1)]
        { nstick := 7, size := 7, actions := [], finished := false,
          player := true, p1 := emptyPlayer, p2 := emptyPlayer } =
      Except.error (JsError.typeError ("Reduce of empty array with no initial value")) ∧
    isConfigurationError (playNextTurnGreedy [(3, 1)]
        { nstick := 7, size := 7, actions := [], finished := false,
          player := true, p1 := emptyPlayer, p2 := emptyPlayer }) = false :=
  empty_actions_fails_type_error [(3, 1)] _ rfl

/-- Counterexample to claim C2 as stated: with table `{3 ↦ -1}` and legal
successors `[5, 3]`, the greedy step returns `5` — the JS comparison
`values[3] < values[5]` is `false` because `values[5]` is `undefined` —
although under the claimed default-0 reading the unique minimum-value
state is `3`. -/
theorem greedy_default_zero_cex :
    greedyStep [(3, -1)] [5, 3] = Except.ok 5 ∧
    vtGet [(3, -1)] 3 < vtGet [(3, -1)] 5 := by
  constructor
  · rfl
  · norm_num [vtGet, vtLookup]

lemma argminFold_le (val : Int → ℚ) :
    ∀ (xs : List Int) (m : Int),
      val (argminFold val m xs) ≤ val m ∧ ∀ s ∈ xs, val (argminFold val m xs) ≤ val s := by
  intro xs
  induction xs with
  | nil => exact fun m => ⟨le_refl _, by simp⟩
  | cons c cs ih =>
    intro m
    by_cases hc : val c < val m
    · have h := ih c
      have harg : argminFold val m (c :: cs) = argminFold val c cs := by
        simp only [argminFold, List.foldl_cons]
        rw [if_pos hc]
      rw [harg]
      refine ⟨h.1.trans hc.le, ?_⟩
      intro s hs
      rcases List.mem_cons.mp hs with rfl | hs
      · exact h.1
      · exact h.2 s hs
    · have h := ih m
      have harg : argminFold val m (c :: cs) = argminFold val m cs := by
        simp only [argminFold, List.foldl_cons]
        rw [if_neg hc]
      rw [harg]
      refine ⟨h.1, ?_⟩
      intro s hs
      rcases List.mem_cons.mp hs with rfl | hs
      · exact h.1.trans (not_lt.mp hc)
      · exact h.2 s hs

lemma argminFold_first (val : Int → ℚ) :
    ∀ (xs : List Int) (m : Int),
      argminFold val m xs = m ∨
      ∃ l t, xs = l ++ argminFold val m xs :: t ∧ val (argminFold val m xs) < val m ∧
        ∀ u ∈ l, val (argminFold val m xs) < val u := by
  intro xs
  induction xs with
  | nil => exact fun m => Or.inl rfl
  | cons c cs ih =>
    intro m
    by_cases hc : val c < val m
    · have harg : argminFold val m (c :: cs) = argminFold val c cs := by
        simp only [argminFold, List.foldl_cons]
        rw [if_pos hc]
      rw [harg]
      rcases ih c with h | ⟨l, t, hdec, hlt, hall⟩
      · right
        refine ⟨[], cs, by simp [h], ?_, by simp⟩
        rw [h]
        exact hc
      · right
        refine ⟨c :: l, t, ?_, hlt.trans hc, ?_⟩
        · conv_lhs => rw [hdec]
          rfl
        intro u hu
        rcases List.mem_cons.mp hu with rfl | hu
        · exact hlt
        · exact hall u hu
    · have harg : argminFold val m (c :: cs) = argminFold val m cs := by
        simp only [argminFold, List.foldl_cons]
        rw [if_neg hc]
      rw [harg]
      rcases ih m with h | ⟨l, t, hdec, hlt, hall⟩
      · exact Or.inl h
      · right
        refine ⟨c :: l, t, ?_, hlt, ?_⟩
        · conv_lhs => rw [hdec]
          rfl
        intro u hu
        rcases List.mem_cons.mp hu with rfl | hu
        · exact hlt.trans_le (not_lt.mp hc)
        · exact hall u hu

lemma greedy_fold_present (values : VT) :
    ∀ (xs : List Int) (m : Int),
      (vtLookup values m).isSome = true → (∀ s ∈ xs, (vtLookup values s).isSome = true) →
      xs.foldl (fun mn c => if ltJS (vtLookup values c) (vtLookup values mn) then c else mn) m =
        argminFold (vtGet values) m xs := by
  intro xs
  induction xs with
  | nil => intro m _ _; rfl
  | cons c cs ih =>
    intro m hm hall
    have hc : (vtLookup values c).isSome = true := hall c (by simp)
    obtain ⟨qm, hqm⟩ := Option.isSome_iff_exists.mp hm
    obtain ⟨qc, hqc⟩ := Option.isSome_iff_exists.mp hc
    have hstep : (if ltJS (vtLookup values c) (vtLookup values m) then c else m) =
        (if vtGet values c < vtGet values m then c else m) := by
      rw [hqc, hqm]
      simp [ltJS, vtGet, hqc, hqm]
    have hnext : (vtLookup values (if vtGet values c < vtGet values m then c else m)).isSome
        = true := by
      by_cases h : vtGet values c < vtGet values m <;> simp [h, hc, hm]
    have hrest : ∀ s ∈ cs, (vtLookup values s).isSome = true :=
      fun s hs => hall s (List.mem_cons_of_mem c hs)
    simp only [List.foldl_cons, argminFold]
    rw [hstep]
    exact ih _ hnext hrest

/-- Claim C2 (amended): when every offered successor state is present in
the value table, the greedy step returns the offered state with the
minimum stored value, ties broken in favor of the first-encountered one
(everything strictly before it in the offered order has strictly larger
value).  Presence of all offered states is required: a missing state is
not treated as having value 0 (see the counterexample). -/
theorem greedy_min_all_present (values : VT) (x : Int) (xs : List Int)
    (hall : ∀ s ∈ x :: xs, (vtLookup values s).isSome = true) :
    ∃ r, greedyStep values (x :: xs) = Except.ok r ∧ r ∈ x :: xs ∧
      (∀ s ∈ x :: xs, vtGet values r ≤ vtGet values s) ∧
      ∃ l t, x :: xs = l ++ r :: t ∧ ∀ u ∈ l, vtGet values r < vtGet values u := by
  have hx : (vtLookup values x).isSome = true := hall x (by simp)
  have hxs : ∀ s ∈ xs, (vtLookup values s).isSome = true :=
    fun s hs => hall s (List.mem_cons_of_mem x hs)
  have hfold := greedy_fold_present values xs x hx hxs
  have hle := argminFold_le (vtGet values) xs x
  have hfirst := argminFold_first (vtGet values) xs x
  refine ⟨argminFold (vtGet values) x xs, by simp [greedyStep, hfold], ?_, ?_, ?_⟩
  · rcases hfirst with h | ⟨l, t, hdec, _, _⟩
    · rw [h]
      exact List.mem_cons_self x xs
    · have hmem0 : argminFold (vtGet values) x xs ∈ l ++ argminFold (vtGet values) x xs :: t :=
        List.mem_append_right l (List.mem_cons_self _ _)
      rw [← hdec] at hmem0
      exact List.mem_cons_of_mem x hmem0
  · intro s hs
    rcases List.mem_cons.mp hs with rfl | hs
    · exact hle.1
    · exact hle.2 s hs
  · rcases hfirst with h | ⟨l, t, hdec, hlt, hlall⟩
    · refine ⟨[], xs, ?_, by simp⟩
      rw [h]
      rfl
    · refine ⟨x :: l, t, ?_, ?_⟩
      · conv_lhs => rw [hdec]
        rfl
      · intro u hu
        rcases List.mem_cons.mp hu with rfl | hu
        · exact hlt
        · exact hlall u hu

/-- Witness for C2 (amended): with table `{1 ↦ 2, 0 ↦ 1, -1 ↦ 3}`, every
offered state present, the greedy step over `[1, 0, -1]` picks `0`. -/
theorem greedy_min_all_present_witness :
    ∃ r, greedyStep [(1, 2), (0, 1), (-1, 3)] (1 :: [0, -1]) = Except.ok r ∧
      r ∈ 1 :: [0, -1] ∧
      (∀ s ∈ 1 :: [0, -1],
        vtGet [(1, 2), (0, 1), (-1, 3)] r ≤ vtGet [(1, 2), (0, 1), (-1, 3)] s) ∧
      ∃ l t, 1 :: [0, -1] = l ++ r :: t ∧
        ∀ u ∈ l, vtGet [(1, 2), (0, 1), (-1, 3)] r < vtGet [(1, 2), (0, 1), (-1, 3)] u :=
  greedy_min_all_present [(1, 2), (0, 1), (-1, 3)] 1 [0, -1] (by decide)

lemma stepMove_player (g : GameState) (m : Int) : (stepMove g m).player = !g.player := rfl

lemma midGame_start (g : GameState) (hfin : g.finished = false)
    (h1 : g.p1.history = []) (h2 : g.p2.history = []) : midGame g := by
  refine ⟨hfin, ?_, ?_⟩ <;> cases hp : g.player <;>
    simp [moverPS, otherPS, hp, h1, h2, allFilled, okMid]

lemma allFilled_append_one (h : List Transition) (t : Transition)
    (hh : allFilled h) (h1 : t.nextState ≠ none) (h2 : t.reward = 0) :
    allFilled (h ++ [t]) := by
  intro u hu
  rcases List.mem_append.mp hu with hu | hu
  · exact hh u hu
  · rw [List.mem_singleton.mp hu]
    exact ⟨h1, h2⟩

lemma turnFinished_mover_nonterminal_ok (pv nx ac : Int) (p : PlayerState)
    (hfil : allFilled p.history) :
    okMid (turnFinished true false pv nx ac p).history ∧
    (turnFinished true false pv nx ac p).history ≠ [] ∧
    (turnFinished true false pv nx ac p).rewards = p.rewards ∧
    (turnFinished true false pv nx ac p).winCount = p.winCount ∧
    (turnFinished true false pv nx ac p).loseCount = p.loseCount := by
  rw [turnFinished_mover_nonterminal]
  exact ⟨Or.inr ⟨p.history, ac, pv, rfl, hfil⟩, by simp, rfl, rfl, rfl⟩

lemma turnFinished_other_nonterminal_ok (pv nx ac : Int) (p : PlayerState)
    (hok : okMid p.history) :
    allFilled (turnFinished false false pv nx ac p).history ∧
    (turnFinished false false pv nx ac p).rewards = p.rewards ∧
    (turnFinished false false pv nx ac p).winCount = p.winCount ∧
    (turnFinished false false pv nx ac p).loseCount = p.loseCount := by
  rcases hok with hnil | ⟨h', a, q, hdec, hfil⟩
  · rw [turnFinished_other_nil false pv nx ac p hnil]
    refine ⟨?_, rfl, rfl, rfl⟩
    rw [hnil]
    intro t ht
    simp at ht
  · rw [turnFinished_other_nonterminal pv nx ac p h' _ hdec]
    refine ⟨?_, rfl, rfl, rfl⟩
    exact allFilled_append_one h' _ hfil (by simp) (by simp)

lemma stepMove_mid (g : GameState) (m : Int) (hg : midGame g) (hm : 0 < m) :
    midGame (stepMove g m) ∧ statsOf (stepMove g m) = statsOf g ∧
      (otherPS (stepMove g m)).history ≠ [] := by
  obtain ⟨hfin, hmov, hoth⟩ := hg
  have hnle : ¬ (m ≤ 0) := by omega
  cases hp : g.player with
  | false =>
    simp only [moverPS, otherPS, hp] at hmov hoth
    simp only [if_neg Bool.false_ne_true] at hmov hoth
    have hstep : stepMove g m =
        { g with
            nstick := m,
            finished := false,
            player := true,
            p1 := turnFinished true false g.nstick m (g.nstick - m) g.p1,
            p2 := turnFinished false false g.nstick m (g.nstick - m) g.p2 } := by
      simp [stepMove, playNextTurn, hp, hnle, hfin]
    have hM := turnFinished_mover_nonterminal_ok g.nstick m (g.nstick - m) g.p1 hmov
    have hO := turnFinished_other_nonterminal_ok g.nstick m (g.nstick - m) g.p2 hoth
    rw [hstep]
    refine ⟨⟨rfl, ?_, ?_⟩, ?_, ?_⟩
    · simpa [moverPS] using hO.1
    · simpa [otherPS] using hM.1
    · simp [statsOf, hM.2.2.1, hM.2.2.2.1, hM.2.2.2.2, hO.2.1, hO.2.2.1, hO.2.2.2]
    · simpa [otherPS] using hM.2.1
  | true =>
    simp only [moverPS, otherPS, hp, if_pos] at hmov hoth
    have hstep : stepMove g m =
        { g with
            nstick := m,
            finished := false,
            player := false,
            p1 := turnFinished false false g.nstick m (g.nstick - m) g.p1,
            p2 := turnFinished true false g.nstick m (g.nstick - m) g.p2 } := by
      simp [stepMove, playNextTurn, hp, hnle, hfin]
    have hM := turnFinished_mover_nonterminal_ok g.nstick m (g.nstick - m) g.p2 hmov
    have hO := turnFinished_other_nonterminal_ok g.nstick m (g.nstick - m) g.p1 hoth
    rw [hstep]
    refine ⟨⟨rfl, ?_, ?_⟩, ?_, ?_⟩
    · simpa [moverPS] using hO.1
    · simpa [otherPS] using hM.1
    · simp [statsOf, hM.2.2.1, hM.2.2.2.1, hM.2.2.2.2, hO.2.1, hO.2.2.1, hO.2.2.2]
    · simpa [otherPS] using hM.2.1

lemma runGame_mid : ∀ (moves : List Int) (g : GameState), midGame g →
    (∀ m ∈ moves, 0 < m) →
    midGame (runGame g moves) ∧ statsOf (runGame g moves) = statsOf g ∧
      (moves = [] ∨ (otherPS (runGame g moves)).history ≠ []) := by
  intro moves
  induction moves with
  | nil => exact fun g hg _ => ⟨hg, rfl, Or.inl rfl⟩
  | cons m ms ih =>
    intro g hg hpos
    have hm : 0 < m := hpos m (by simp)
    have hstep := stepMove_mid g m hg hm
    have hrec := ih (stepMove g m) hstep.1 (fun x hx => hpos x (List.mem_cons_of_mem m hx))
    have hrun : runGame g (m :: ms) = runGame (stepMove g m) ms := rfl
    rw [hrun]
    refine ⟨hrec.1, hrec.2.1.trans hstep.2.1, Or.inr ?_⟩
    rcases hrec.2.2 with hnil | hne
    · rw [hnil]
      simpa [runGame] using hstep.2.2
    · exact hne

lemma terminal_turns (pv m : Int) (L W : PlayerState) (hWok : okMid W.history) :
    (turnFinished true true pv m (pv - m) L).history =
      L.history ++ [{ action := pv - m, prevState := pv, nextState := none, reward := -1 }] ∧
    (turnFinished true true pv m (pv - m) L).rewards = L.rewards ++ [-1] ∧
    (turnFinished true true pv m (pv - m) L).loseCount = L.loseCount + 1 ∧
    (turnFinished true true pv m (pv - m) L).winCount = L.winCount ∧
    ((W.history = [] ∧ turnFinished false true pv m (pv - m) W = W) ∨
      ∃ h' a q, allFilled h' ∧
        (turnFinished false true pv m (pv - m) W).history =
          h' ++ [{ action := a, prevState := q, nextState := some m, reward := 1 }] ∧
        (turnFinished false true pv m (pv - m) W).rewards = W.rewards ++ [1] ∧
        (turnFinished false true pv m (pv - m) W).winCount = W.winCount + 1 ∧
        (turnFinished false true pv m (pv - m) W).loseCount = W.loseCount) := by
  refine ⟨by rw [turnFinished_mover_terminal], by rw [turnFinished_mover_terminal],
    by rw [turnFinished_mover_terminal], by rw [turnFinished_mover_terminal], ?_⟩
  rcases hWok with hnil | ⟨h', a, q, hdec, hfil⟩
  · exact Or.inl ⟨hnil, turnFinished_other_nil true pv m (pv - m) W hnil⟩
  · right
    refine ⟨h', a, q, hfil, ?_, ?_, ?_, ?_⟩ <;>
      simp [turnFinished_other_terminal pv m (pv - m) W h' _ hdec]

lemma stepMove_terminal (g : GameState) (m : Int) (hg : midGame g) (hm : m ≤ 0) :
    (stepMove g m).finished = true ∧
    (otherPS (stepMove g m)).history =
      (moverPS g).history ++
        [{ action := g.nstick - m, prevState := g.nstick, nextState := none, reward := -1 }] ∧
    (otherPS (stepMove g m)).rewards = (moverPS g).rewards ++ [-1] ∧
    (otherPS (stepMove g m)).loseCount = (moverPS g).loseCount + 1 ∧
    (otherPS (stepMove g m)).winCount = (moverPS g).winCount ∧
    (((otherPS g).history = [] ∧ moverPS (stepMove g m) = otherPS g) ∨
      ∃ h' a q, allFilled h' ∧
        (moverPS (stepMove g m)).history =
          h' ++ [{ action := a, prevState := q, nextState := some m, reward := 1 }] ∧
        (moverPS (stepMove g m)).rewards = (otherPS g).rewards ++ [1] ∧
        (moverPS (stepMove g m)).winCount = (otherPS g).winCount + 1 ∧
        (moverPS (stepMove g m)).loseCount = (otherPS g).loseCount) := by
  obtain ⟨hfin, hmov, hoth⟩ := hg
  cases hp : g.player with
  | false =>
    simp only [moverPS, otherPS, hp] at hmov hoth ⊢
    simp only [if_neg Bool.false_ne_true] at hmov hoth ⊢
    have hstep : stepMove g m =
        { g with
            nstick := m,
            finished := true,
            player := true,
            p1 := turnFinished true true g.nstick m (g.nstick - m) g.p1,
            p2 := turnFinished false true g.nstick m (g.nstick - m) g.p2 } := by
      simp [stepMove, playNextTurn, hp, hm]
    rw [hstep]
    have h := terminal_turns g.nstick m g.p1 g.p2 hoth
    exact ⟨rfl, h.1, h.2.1, h.2.2.1, h.2.2.2.1, h.2.2.2.2⟩
  | true =>
    simp only [moverPS, otherPS, hp, if_pos] at hmov hoth ⊢
    have hstep : stepMove g m =
        { g with
            nstick := m,
            finished := true,
            player := false,
            p1 := turnFinished false true g.nstick m (g.nstick - m) g.p1,
            p2 := turnFinished true true g.nstick m (g.nstick - m) g.p2 } := by
      simp [stepMove, playNextTurn, hp, hm]
    rw [hstep]
    have h := terminal_turns g.nstick m g.p2 g.p1 hoth
    exact ⟨rfl, h.1, h.2.1, h.2.2.1, h.2.2.2.1, h.2.2.2.2⟩

/-- Counterexample to claim C3 as stated: a completed one-turn game — pile
3, actions `{1,2,3}`, the first mover legally takes all three sticks.  The
mover logs `-1` and a loss, but the opponent's history is empty when the
terminal notification arrives, so the `else if` branch of `turnFinished`
is skipped: the winner gets no `+1` reward and no win count. -/
theorem one_turn_game_no_winner_cex :
    (runGame { nstick := 3, size := 3, actions := [1, 2, 3], finished := false,
               player := false, p1 := emptyPlayer, p2 := emptyPlayer } [0]).finished = true ∧
    (runGame { nstick := 3, size := 3, actions := [1, 2, 3], finished := false,
               player := false, p1 := emptyPlayer, p2 := emptyPlayer } [0]).p1.rewards = [-1] ∧
    (runGame { nstick := 3, size := 3, actions := [1, 2, 3], finished := false,
               player := false, p1 := emptyPlayer, p2 := emptyPlayer } [0]).p1.loseCount = 1 ∧
    (runGame { nstick := 3, size := 3, actions := [1, 2, 3], finished := false,
               player := false, p1 := emptyPlayer, p2 := emptyPlayer } [0]).p2.rewards = [] ∧
    (runGame { nstick := 3, size := 3, actions := [1, 2, 3], finished := false,
               player := false, p1 := emptyPlayer, p2 := emptyPlayer } [0]).p2.winCount = 0 :=
  ⟨rfl, rfl, rfl, rfl, rfl⟩

/-- Claim C3 (amended): for every game played to completion in at least
two turns (non-terminal moves leave a positive pile; the final move makes
it non-positive), exactly one player logs `-1` with a lose count increment
and the other logs `+1` with a win count increment, and neither logs
anything else.  In a one-turn game the winner receives nothing (see the
counterexample). -/
theorem terminal_reward_symmetry (g : GameState) (body : List Int) (mlast : Int)
    (hfin : g.finished = false) (h1 : g.p1.history = []) (h2 : g.p2.history = [])
    (hbody : body ≠ []) (hpos : ∀ m ∈ body, 0 < m) (hlast : mlast ≤ 0) :
    (runGame g (body ++ [mlast])).finished = true ∧
    (((runGame g (body ++ [mlast])).p1.rewards = g.p1.rewards ++ [-1] ∧
      (runGame g (body ++ [mlast])).p1.loseCount = g.p1.loseCount + 1 ∧
      (runGame g (body ++ [mlast])).p1.winCount = g.p1.winCount ∧
      (runGame g (body ++ [mlast])).p2.rewards = g.p2.rewards ++ [1] ∧
      (runGame g (body ++ [mlast])).p2.winCount = g.p2.winCount + 1 ∧
      (runGame g (body ++ [mlast])).p2.loseCount = g.p2.loseCount) ∨
     ((runGame g (body ++ [mlast])).p2.rewards = g.p2.rewards ++ [-1] ∧
      (runGame g (body ++ [mlast])).p2.loseCount = g.p2.loseCount + 1 ∧
      (runGame g (body ++ [mlast])).p2.winCount = g.p2.winCount ∧
      (runGame g (body ++ [mlast])).p1.rewards = g.p1.rewards ++ [1] ∧
      (runGame g (body ++ [mlast])).p1.winCount = g.p1.winCount + 1 ∧
      (runGame g (body ++ [mlast])).p1.loseCount = g.p1.loseCount)) := by
  have hmid := runGame_mid body g (midGame_start g hfin h1 h2) hpos
  have happ : runGame g (body ++ [mlast]) = stepMove (runGame g body) mlast := by
    simp [runGame, List.foldl_append]
  have hterm := stepMove_terminal (runGame g body) mlast hmid.1 hlast
  have hne : (otherPS (runGame g body)).history ≠ [] := by
    rcases hmid.2.2 with hnil | hne
    · exact absurd hnil hbody
    · exact hne
  have hst := hmid.2.1
  simp only [statsOf, Prod.mk.injEq] at hst
  obtain ⟨⟨e1, e2, e3⟩, e4, e5, e6⟩ := hst
  rcases hterm.2.2.2.2.2 with ⟨hnil, _⟩ | ⟨h', a, q, hfil, hw1, hw2, hw3, hw4⟩
  · exact absurd hnil hne
  constructor
  · rw [happ]
    exact hterm.1
  rw [happ]
  cases hp : (runGame g body).player with
  | false =>
    left
    have hms : moverPS (runGame g body) = (runGame g body).p1 := by simp [moverPS, hp]
    have hos : otherPS (runGame g body) = (runGame g body).p2 := by simp [otherPS, hp]
    have hMP : moverPS (stepMove (runGame g body) mlast) =
        (stepMove (runGame g body) mlast).p2 := by
      simp [moverPS, stepMove_player, hp]
    have hOP : otherPS (stepMove (runGame g body) mlast) =
        (stepMove (runGame g body) mlast).p1 := by
      simp [otherPS, stepMove_player, hp]
    refine ⟨?_, ?_, ?_, ?_, ?_, ?_⟩
    · rw [← hOP, hterm.2.2.1, hms, e1]
    · rw [← hOP, hterm.2.2.2.1, hms, e3]
    · rw [← hOP, hterm.2.2.2.2.1, hms, e2]
    · rw [← hMP, hw2, hos, e4]
    · rw [← hMP, hw3, hos, e5]
    · rw [← hMP, hw4, hos, e6]
  | true =>
    right
    have hms : moverPS (runGame g body) = (runGame g body).p2 := by simp [moverPS, hp]
    have hos : otherPS (runGame g body) = (runGame g body).p1 := by simp [otherPS, hp]
    have hMP : moverPS (stepMove (runGame g body) mlast) =
        (stepMove (runGame g body) mlast).p1 := by
      simp [moverPS, stepMove_player, hp]
    have hOP : otherPS (stepMove (runGame g body) mlast) =
        (stepMove (runGame g body) mlast).p2 := by
      simp [otherPS, stepMove_player, hp]
    refine ⟨?_, ?_, ?_, ?_, ?_, ?_⟩
    · rw [← hOP, hterm.2.2.1, hms, e4]
    · rw [← hOP, hterm.2.2.2.1, hms, e6]
    · rw [← hOP, hterm.2.2.2.2.1, hms, e5]
    · rw [← hMP, hw2, hos, e1]
    · rw [← hMP, hw3, hos, e2]
    · rw [← hMP, hw4, hos, e3]

/-- Witness for C3 (amended) on a concrete two-turn game: from pile 5,
player 1 leaves 2 sticks, player 2 takes the rest and loses. -/
theorem terminal_reward_symmetry_witness :
    (runGame gDemo ([2] ++ [0])).finished = true ∧
    (((runGame gDemo ([2] ++ [0])).p1.rewards = gDemo.p1.rewards ++ [-1] ∧
      (runGame gDemo ([2] ++ [0])).p1.loseCount = gDemo.p1.loseCount + 1 ∧
      (runGame gDemo ([2] ++ [0])).p1.winCount = gDemo.p1.winCount ∧
      (runGame gDemo ([2] ++ [0])).p2.rewards = gDemo.p2.rewards ++ [1] ∧
      (runGame gDemo ([2] ++ [0])).p2.winCount = gDemo.p2.winCount + 1 ∧
      (runGame gDemo ([2] ++ [0])).p2.loseCount = gDemo.p2.loseCount) ∨
     ((runGame gDemo ([2] ++ [0])).p2.rewards = gDemo.p2.rewards ++ [-1] ∧
      (runGame gDemo ([2] ++ [0])).p2.loseCount = gDemo.p2.loseCount + 1 ∧
      (runGame gDemo ([2] ++ [0])).p2.winCount = gDemo.p2.winCount ∧
      (runGame gDemo ([2] ++ [0])).p1.rewards = gDemo.p1.rewards ++ [1] ∧
      (runGame gDemo ([2] ++ [0])).p1.winCount = gDemo.p1.winCount + 1 ∧
      (runGame gDemo ([2] ++ [0])).p1.loseCount = gDemo.p1.loseCount)) :=
  terminal_reward_symmetry gDemo [2] 0 rfl rfl rfl (by decide) (by decide) (by decide)

/-- Counterexample to claim C6 as stated: in a completed two-turn game
(pile 4; player 1 leaves 2, player 2 takes the rest), the losing player's
terminal record still holds the pending `NaN` placeholder as `nextState`
when the episode ends — no opponent notification ever fills it — and
`train()` consumes exactly that record, reading the missing
`values[NaN]` as the default `0`. -/
theorem pending_terminal_record_cex :
    (runGame { nstick := 4, size := 4, actions := [1, 2, 3], finished := false,
               player := false, p1 := emptyPlayer, p2 := emptyPlayer } [2, 0]).finished = true ∧
    (runGame { nstick := 4, size := 4, actions := [1, 2, 3], finished := false,
               player := false, p1 := emptyPlayer, p2 := emptyPlayer } [2, 0]).p2.history =
      [{ action := 2, prevState := 2, nextState := none, reward := -1 }] ∧
    trainValues 1
      (runGame { nstick := 4, size := 4, actions := [1, 2, 3], finished := false,
                 player := false, p1 := emptyPlayer, p2 := emptyPlayer } [2, 0]).p2.history
      [] = [(2, -1)] :=
  ⟨rfl, rfl, by
    show trainValues 1 [{ action := 2, prevState := 2, nextState := none, reward := -1 }] []
      = [(2, -1)]
    norm_num [trainValues, trainStep, vtLookup, vtLookupN]⟩

/-- Claim C6 (amended): in every completed game, every record held by
either player when `train()` runs has reward in `{-1, 0, 1}`, every record
with reward `0` has a filled (non-pending) `nextState`, and the only
records that may keep the pending placeholder are terminal loss records
(reward `-1`) — the loser's final move is never followed by the opponent
notification that would fill it. -/
theorem finalized_records_ok (g : GameState) (body : List Int) (mlast : Int)
    (hfin : g.finished = false) (h1 : g.p1.history = []) (h2 : g.p2.history = [])
    (hpos : ∀ m ∈ body, 0 < m) (hlast : mlast ≤ 0) :
    (runGame g (body ++ [mlast])).finished = true ∧
    ∀ t : Transition,
      t ∈ (runGame g (body ++ [mlast])).p1.history ∨
        t ∈ (runGame g (body ++ [mlast])).p2.history →
      (t.reward = -1 ∨ t.reward = 0 ∨ t.reward = 1) ∧
      (t.reward = 0 → t.nextState ≠ none) ∧
      (t.nextState = none → t.reward = -1) := by
  have hmid := runGame_mid body g (midGame_start g hfin h1 h2) hpos
  have happ : runGame g (body ++ [mlast]) = stepMove (runGame g body) mlast := by
    simp [runGame, List.foldl_append]
  have hterm := stepMove_terminal (runGame g body) mlast hmid.1 hlast
  have hLfil : allFilled (moverPS (runGame g body)).history := hmid.1.2.1
  constructor
  · rw [happ]
    exact hterm.1
  intro t ht
  rw [happ] at ht
  have hcov : t ∈ (moverPS (stepMove (runGame g body) mlast)).history ∨
      t ∈ (otherPS (stepMove (runGame g body) mlast)).history := by
    rcases ht with h | h
    · cases hp : (stepMove (runGame g body) mlast).player with
      | false => exact Or.inl (by simpa [moverPS, hp] using h)
      | true => exact Or.inr (by simpa [otherPS, hp] using h)
    · cases hp : (stepMove (runGame g body) mlast).player with
      | false => exact Or.inr (by simpa [otherPS, hp] using h)
      | true => exact Or.inl (by simpa [moverPS, hp] using h)
  rcases hcov with h | h
  · rcases hterm.2.2.2.2.2 with ⟨hnil, heq⟩ | ⟨h', a, q, hfil, hw1, _, _, _⟩
    · rw [heq, hnil] at h
      exact absurd h (List.not_mem_nil t)
    · rw [hw1] at h
      rcases List.mem_append.mp h with h | h
      · have hok := hfil t h
        exact ⟨Or.inr (Or.inl hok.2), fun _ => hok.1, fun hns => absurd hns hok.1⟩
      · rw [List.mem_singleton.mp h]
        refine ⟨Or.inr (Or.inr rfl), ?_, ?_⟩ <;> simp
  · rw [hterm.2.1] at h
    rcases List.mem_append.mp h with h | h
    · have hok := hLfil t h
      exact ⟨Or.inr (Or.inl hok.2), fun _ => hok.1, fun hns => absurd hns hok.1⟩
    · rw [List.mem_singleton.mp h]
      refine ⟨Or.inl rfl, ?_, ?_⟩ <;> simp

/-- Witness for C6 (amended) on a concrete three-turn game from pile 7. -/
theorem finalized_records_ok_witness :
    (runGame { nstick := 7, size := 7, actions := [1, 2, 3], finished := false,
               player := false, p1 := emptyPlayer, p2 := emptyPlayer } ([4, 2] ++ [0])).finished
      = true ∧
    ∀ t : Transition,
      t ∈ (runGame { nstick := 7, size := 7, actions := [1, 2, 3], finished := false,
                     player := false, p1 := emptyPlayer, p2 := emptyPlayer }
            ([4, 2] ++ [0])).p1.history ∨
        t ∈ (runGame { nstick := 7, size := 7, actions := [1, 2, 3], finished := false,
                       player := false, p1 := emptyPlayer, p2 := emptyPlayer }
              ([4, 2] ++ [0])).p2.history →
      (t.reward = -1 ∨ t.reward = 0 ∨ t.reward = 1) ∧
      (t.reward = 0 → t.nextState ≠ none) ∧
      (t.nextState = none → t.reward = -1) :=
  finalized_records_ok _ [4, 2] 0 rfl rfl rfl (by decide) (by decide)
